import Mathlib

/-!
Verification of the TRD Live Learning file-ingestion and generation pipeline.

This file gives a shallow embedding, in Lean, of the string- and list-level
logic of the repository's core services:

* `src/services/gemini.ts` — response cleaning (`cleanResponse`), output
  auto-selection (`autoSelectOutputType`, `getDefaultOutputType`), and the
  missing-`text` fallbacks of `generateTraining` / `refineApp`;
* `src/services/file-processor.ts` — file-type detection (`detectFileType`),
  CSV parsing (`processCsv`, `parseCsvLine`), metadata (`extractMetadata`),
  PDF page extraction (`processPdf`), and video frame sampling
  (`processVideo`);
* `src/services/output-registry.ts` (bundled in `achievement-engine.ts`) —
  the output registry and `getApplicableOutputs`.

JavaScript strings are modelled as `List Char`; JavaScript numbers that the
code manipulates exactly (durations, timestamps, parsed cell values) are
modelled as rationals; fallible operations return `Option`/`Except`.
External collaborators (the Gemini model, pdf.js, the xlsx library, the DOM)
are modelled as explicit inputs to the embedded functions.
-/

namespace TRD

/-- JavaScript strings, modelled as lists of characters. -/
abbrev Str := List Char

/-! ## JavaScript string primitives -/

/-- JavaScript's whitespace class (`\s`, and the set trimmed by
`String.prototype.trim`): space, tab, LF, CR, VT, FF, NBSP, the Unicode
line/paragraph separators and the BOM. -/
def isJsSpace (c : Char) : Bool :=
  c = ' ' || c = '\t' || c = '\n' || c = '\r' ||
  c = Char.ofNat 11 || c = Char.ofNat 12 || c = Char.ofNat 0xa0 ||
  c = Char.ofNat 0x2028 || c = Char.ofNat 0x2029 || c = Char.ofNat 0xfeff

/-- The 26 ASCII uppercase/lowercase letter pairs used by `toLowerCase` on
the ASCII inputs this code compares against. -/
def lowerPairs : List (Char × Char) :=
  [('A', 'a'), ('B', 'b'), ('C', 'c'), ('D', 'd'), ('E', 'e'), ('F', 'f'),
   ('G', 'g'), ('H', 'h'), ('I', 'i'), ('J', 'j'), ('K', 'k'), ('L', 'l'),
   ('M', 'm'), ('N', 'n'), ('O', 'o'), ('P', 'p'), ('Q', 'q'), ('R', 'r'),
   ('S', 's'), ('T', 't'), ('U', 'u'), ('V', 'v'), ('W', 'w'), ('X', 'x'),
   ('Y', 'y'), ('Z', 'z')]

/-- Association-list lookup (first match). -/
def assocLookup {α β : Type} [DecidableEq α] (k : α) : List (α × β) → Option β
  | [] => none
  | (k', v) :: rest => if k' = k then some v else assocLookup k rest

/-- Lowercase one character (`toLowerCase`, ASCII range). -/
def jsToLowerChar (c : Char) : Char :=
  match assocLookup c lowerPairs with
  | some d => d
  | none => c

/-- `s.toLowerCase()`. -/
def strLower (s : Str) : Str := s.map jsToLowerChar

/-- Drop leading JavaScript whitespace. -/
def dropWhileSpace (s : Str) : Str := s.dropWhile isJsSpace

/-- Drop trailing JavaScript whitespace. -/
def trimTrailingSpace (s : Str) : Str := (s.reverse.dropWhile isJsSpace).reverse

/-- `s.trim()`. -/
def jsTrim (s : Str) : Str := trimTrailingSpace (dropWhileSpace s)

/-- `s.startsWith(pre)`. -/
def strStartsWith (pre s : Str) : Bool := decide (s.take pre.length = pre)

/-- `s.endsWith(suf)`. -/
def strEndsWith (suf s : Str) : Bool := decide (s.reverse.take suf.length = suf.reverse)

/-- `s.includes(pat)` (substring containment). -/
def strContainsSub (pat : Str) : Str → Bool
  | [] => pat.isEmpty
  | c :: rest => strStartsWith pat (c :: rest) || strContainsSub pat rest

/-- `text.split(sep)` for a single-character separator: splits on every
occurrence, keeping empty segments. -/
def splitChar (sep : Char) : Str → List Str
  | [] => [[]]
  | c :: rest =>
    let r := splitChar sep rest
    if c = sep then [] :: r
    else match r with
      | [] => [[c]]
      | seg :: segs => (c :: seg) :: segs

/-- `parts.join(sep)`. -/
def joinWith (sep : Str) : List Str → Str
  | [] => []
  | [x] => x
  | x :: y :: rest => x ++ sep ++ joinWith sep (y :: rest)

/-- `s.replace(/\s+/g, ' ')`: each maximal whitespace run becomes one space.
The flag records whether the previous character was whitespace. -/
def collapseSpacesAux : Bool → Str → Str
  | _, [] => []
  | prev, c :: rest =>
    if isJsSpace c then
      if prev then collapseSpacesAux true rest
      else ' ' :: collapseSpacesAux true rest
    else c :: collapseSpacesAux false rest

/-- `s.replace(/\s+/g, ' ')`. -/
def collapseSpaces (s : Str) : Str := collapseSpacesAux false s

/-- JavaScript `a || b` on an optional string (`undefined` and `""` are
falsy). -/
def jsOrStr (o : Option Str) (d : Str) : Str :=
  match o with
  | some t => if t = [] then d else t
  | none => d

/-! ## Response cleaning (`src/services/gemini.ts`, `cleanResponse`)

```ts
function cleanResponse(text: string): string {
  return text
    .replace(/^```html\s*/i, '')
    .replace(/^```\s*/i, '')
    .replace(/```\s*$/i, '')
    .trim();
}
```
-/

/-- The three-backtick fence. -/
def bq3 : Str := "```".toList

/-- The `html`-tagged opening fence. -/
def bq3html : Str := "```html".toList

/-- `text.replace(/^tag\s*/i, '')` for a fixed lowercase `tag`: if the string
starts (case-insensitively) with `tag`, remove it together with the following
whitespace run; otherwise leave the string unchanged. -/
def stripLeadingTag (tag : Str) (s : Str) : Str :=
  if strLower (s.take tag.length) = tag then dropWhileSpace (s.drop tag.length) else s

/-- `text.replace(/```\s*$/i, '')`: the regex matches exactly when, after
discarding trailing whitespace, the string ends in ```` ``` ````; the match
(that fence plus the trailing whitespace) is removed.  With no match the
string is unchanged. -/
def stripTrailingFence (s : Str) : Str :=
  let r := trimTrailingSpace s
  if strEndsWith bq3 r then r.take (r.length - 3) else s

/-- `cleanResponse` from `gemini.ts`: the two leading-fence replacements (the
second applied to the result of the first), the trailing-fence replacement,
then `trim()`. -/
def cleanResponse (s : Str) : Str :=
  jsTrim (stripTrailingFence (stripLeadingTag bq3 (stripLeadingTag bq3html s)))

/-! ## Core types (`types.ts`) -/

/-- `SupportedFileType`, the closed seven-member union from `types.ts`. -/
inductive SupportedFileType : Type
  | image | pdf | csv | excel | text | markdown | video
deriving DecidableEq, Repr

/-- `OutputType`: the nine concrete training-output kinds plus the synthetic
`auto` marker. -/
inductive OutputType : Type
  | fieldSimulator | damageDetective | commissionTycoon | objectionArena
  | inspectionWalkthrough | flashcardDrill | interactiveTimeline
  | scenarioBuilder | pitchPerfector | auto
deriving DecidableEq, Repr

/-- The string identifier of each output type, as written in the source. -/
def OutputType.ident : OutputType → Str
  | .fieldSimulator => "field-simulator".toList
  | .damageDetective => "damage-detective".toList
  | .commissionTycoon => "commission-tycoon".toList
  | .objectionArena => "objection-arena".toList
  | .inspectionWalkthrough => "inspection-walkthrough".toList
  | .flashcardDrill => "flashcard-drill".toList
  | .interactiveTimeline => "interactive-timeline".toList
  | .scenarioBuilder => "scenario-builder".toList
  | .pitchPerfector => "pitch-perfector".toList
  | .auto => "auto".toList

/-! ## Output registry (`output-registry.ts`)

Each `OutputConfig` also carries `name`, `description`, `icon` and
`promptFragment` fields in the source; those are opaque display/prompt text
never inspected by any logic modelled here, so the embedding keeps only the
`id` and `applicableInputs` fields. -/

/-- One registry entry (`OutputConfig` from `types.ts`, logic-bearing
fields). -/
structure OutputConfig where
  id : OutputType
  applicableInputs : List SupportedFileType
deriving DecidableEq, Repr

/-- `Object.values(OUTPUT_REGISTRY)` in declaration order, with each entry's
`applicableInputs` transcribed from `output-registry.ts`. -/
def OUTPUT_REGISTRY : List OutputConfig :=
  [⟨.fieldSimulator, [.text, .markdown, .pdf]⟩,
   ⟨.damageDetective, [.image, .pdf]⟩,
   ⟨.commissionTycoon, [.text, .markdown, .csv, .excel, .pdf]⟩,
   ⟨.objectionArena, [.text, .markdown, .pdf]⟩,
   ⟨.inspectionWalkthrough, [.image, .pdf, .text, .markdown]⟩,
   ⟨.flashcardDrill, [.text, .markdown, .csv, .excel, .pdf]⟩,
   ⟨.interactiveTimeline, [.text, .markdown, .pdf, .csv]⟩,
   ⟨.scenarioBuilder, [.text, .markdown, .pdf, .csv]⟩,
   ⟨.pitchPerfector, [.text, .markdown, .pdf]⟩,
   ⟨.auto, [.image, .pdf, .csv, .excel, .text, .markdown, .video]⟩]

/-- `getApplicableOutputs` from `output-registry.ts`:
`Object.values(OUTPUT_REGISTRY).filter(config => config.id !== 'auto' &&
config.applicableInputs.includes(fileType))`. -/
def getApplicableOutputs (fileType : SupportedFileType) : List OutputConfig :=
  OUTPUT_REGISTRY.filter
    (fun config =>
      !decide (config.id = OutputType.auto) && decide (fileType ∈ config.applicableInputs))

/-! ## Output auto-selection (`gemini.ts`) -/

/-- `getDefaultOutputType` from `gemini.ts`: static fallback by file type. -/
def getDefaultOutputType : SupportedFileType → OutputType
  | .image => .damageDetective
  | .video => .inspectionWalkthrough
  | .csv => .commissionTycoon
  | .excel => .commissionTycoon
  | .pdf => .flashcardDrill
  | .text => .flashcardDrill
  | .markdown => .flashcardDrill

/-- The `validTypes` array of `autoSelectOutputType`, in source order. -/
def validTypes : List OutputType :=
  [.fieldSimulator, .damageDetective, .commissionTycoon, .objectionArena,
   .inspectionWalkthrough, .flashcardDrill, .interactiveTimeline,
   .scenarioBuilder, .pitchPerfector]

/-- `(response.text || '').trim().toLowerCase().replace(/['"]/g, '')`:
normalize the model's reply (the global replace removes every single and
double quote character). -/
def normalizeModelReply (s : Str) : Str :=
  (strLower (jsTrim s)).filter (fun c => !(c = Char.ofNat 39 || c = Char.ofNat 34))

/-- `autoSelectOutputType` from `gemini.ts`, as a function of the file's
detected type and the outcome of the model call: `.error` models the call
throwing (caught, falling back to the default), `.ok` carries the optional
`text` field of the response.  `validTypes.includes(result)` holds exactly
when some entry's identifier equals the normalized reply, and the cast
`result as OutputType` then yields that entry. -/
def autoSelectOutputType (fileType : SupportedFileType)
    (modelOutcome : Except Unit (Option Str)) : OutputType :=
  match modelOutcome with
  | .error _ => getDefaultOutputType fileType
  | .ok replyText =>
    let result := normalizeModelReply (jsOrStr replyText [])
    match validTypes.find? (fun t => t.ident = result) with
    | some t => t
    | none => getDefaultOutputType fileType

/-! ## Generation / refinement missing-`text` fallbacks (`gemini.ts`)

`generateTraining` (line 98) and `refineApp` (line 533) both end their
success path with `let text = response.text || FALLBACK; return
cleanResponse(text);`.  On a transport error both functions rethrow; the
functions below embed the success path, as a function of the response's
optional `text` field. -/

/-- The generation fallback placeholder (`gemini.ts` line 98). -/
def failedPlaceholder : Str := "<!-- Failed to generate content -->".toList

/-- `generateTraining`'s handling of the model response:
`cleanResponse(response.text || "<!-- Failed to generate content -->")`. -/
def generateTrainingText (respText : Option Str) : Str :=
  cleanResponse (jsOrStr respText failedPlaceholder)

/-- `refineApp`'s handling of the model response:
`cleanResponse(response.text || currentHtml)`. -/
def refineAppText (currentHtml : Str) (respText : Option Str) : Str :=
  cleanResponse (jsOrStr respText currentHtml)

/-! ## File classifier (`file-processor.ts`, `detectFileType`) -/

/-- View of an `Except` as a sum, for deciding equality. -/
def exceptToSum {ε α : Type} : Except ε α → ε ⊕ α
  | .error e => .inl e
  | .ok a => .inr a

instance {ε α : Type} [DecidableEq ε] [DecidableEq α] : DecidableEq (Except ε α) :=
  fun x y =>
    decidable_of_iff (exceptToSum x = exceptToSum y)
      (by cases x <;> cases y <;> simp [exceptToSum])

/-- The anchored video-extension alternation `/\.(mp4|mov|webm|avi|mkv)$/`. -/
def videoExtMatch (name : Str) : Bool :=
  strEndsWith ".mp4".toList name || strEndsWith ".mov".toList name ||
  strEndsWith ".webm".toList name || strEndsWith ".avi".toList name ||
  strEndsWith ".mkv".toList name

/-- The anchored image-extension alternation
`/\.(jpg|jpeg|png|gif|webp|svg|bmp)$/`. -/
def imageExtMatch (name : Str) : Bool :=
  strEndsWith ".jpg".toList name || strEndsWith ".jpeg".toList name ||
  strEndsWith ".png".toList name || strEndsWith ".gif".toList name ||
  strEndsWith ".webp".toList name || strEndsWith ".svg".toList name ||
  strEndsWith ".bmp".toList name

/-- `detectFileType` from `file-processor.ts`, transcribed branch by branch:
MIME checks first, then the extension fallbacks, then the
`Unsupported file type` error with its `${mime || name}` payload. -/
def detectFileType (mimeType fileName : Str) : Except Str SupportedFileType :=
  let mime := strLower mimeType
  let name := strLower fileName
  if strStartsWith "image/".toList mime then .ok .image
  else if mime = "application/pdf".toList then .ok .pdf
  else if mime = "text/csv".toList then .ok .csv
  else if strContainsSub "spreadsheet".toList mime || strContainsSub "excel".toList mime then
    .ok .excel
  else if strStartsWith "video/".toList mime then .ok .video
  else if mime = "text/markdown".toList then .ok .markdown
  else if strStartsWith "text/".toList mime then .ok .text
  else if strEndsWith ".csv".toList name then .ok .csv
  else if strEndsWith ".xlsx".toList name || strEndsWith ".xls".toList name then .ok .excel
  else if strEndsWith ".md".toList name || strEndsWith ".markdown".toList name then .ok .markdown
  else if strEndsWith ".txt".toList name then .ok .text
  else if strEndsWith ".pdf".toList name then .ok .pdf
  else if videoExtMatch name then .ok .video
  else if imageExtMatch name then .ok .image
  else .error ("Unsupported file type: ".toList ++ (if mime = [] then name else mime))

/-- The known-media-type categories in the classifier's priority order, as a
standalone characterization (the spec's "declared media type falls in a known
category").  Takes the already-lowercased media type. -/
def mimeCategory (mime : Str) : Option SupportedFileType :=
  if strStartsWith "image/".toList mime then some .image
  else if mime = "application/pdf".toList then some .pdf
  else if mime = "text/csv".toList then some .csv
  else if strContainsSub "spreadsheet".toList mime || strContainsSub "excel".toList mime then
    some .excel
  else if strStartsWith "video/".toList mime then some .video
  else if mime = "text/markdown".toList then some .markdown
  else if strStartsWith "text/".toList mime then some .text
  else none

/-- The known-extension categories in the classifier's fallback order, as a
standalone characterization.  Takes the already-lowercased file name. -/
def extCategory (name : Str) : Option SupportedFileType :=
  if strEndsWith ".csv".toList name then some .csv
  else if strEndsWith ".xlsx".toList name || strEndsWith ".xls".toList name then some .excel
  else if strEndsWith ".md".toList name || strEndsWith ".markdown".toList name then some .markdown
  else if strEndsWith ".txt".toList name then some .text
  else if strEndsWith ".pdf".toList name then some .pdf
  else if videoExtMatch name then some .video
  else if imageExtMatch name then some .image
  else none

/-! ## CSV extraction (`file-processor.ts`, `processCsv` / `parseCsvLine`)

Cell values are `string | number` in the source (`DataRow`).  JavaScript
numbers produced by `parseFloat` are modelled exactly: a finite value is a
rational, and `parseFloat` can also produce `Infinity`/`-Infinity` from an
`Infinity` literal. -/

/-- A JavaScript number as produced by `parseFloat` (never `NaN`: a `NaN`
outcome is the `none` case of the parser). -/
inductive JsNum : Type
  | finite (q : ℚ)
  | infinite (neg : Bool)
deriving DecidableEq

/-- Numeric negation of a `parseFloat` result. -/
def negJsNum : JsNum → JsNum
  | .finite q => .finite (-q)
  | .infinite b => .infinite (!b)

/-- ASCII decimal digit test. -/
def isDigitCh (c : Char) : Bool := decide ('0' ≤ c) && decide (c ≤ '9')

/-- Value of a digit string. -/
def digitsToNat (ds : List Char) : ℕ :=
  ds.foldl (fun n c => 10 * n + (c.toNat - 48)) 0

/-- Parse the optional exponent part `[eE][+-]?digits` of a decimal literal.
Returns the signed exponent and the unconsumed remainder; when the `e` is not
followed by at least one digit the exponent is not part of the match and
nothing is consumed. -/
def parseExpPart (s : Str) : ℤ × Str :=
  match s with
  | c :: rest =>
    if c = 'e' || c = 'E' then
      let signAndRest : ℤ × Str :=
        match rest with
        | d :: r2 => if d = '+' then (1, r2) else if d = '-' then (-1, r2) else (1, rest)
        | [] => (1, rest)
      let ds := signAndRest.2.takeWhile isDigitCh
      if ds = [] then (0, s)
      else (signAndRest.1 * (digitsToNat ds : ℤ), signAndRest.2.drop ds.length)
    else (0, s)
  | [] => (0, s)

/-- Parse an unsigned `StrUnsignedDecimalLiteral` at the head of the string:
`Infinity`, `digits [. digits?] [exp]`, or `. digits [exp]`.  Returns the
value and the unconsumed remainder, or `none` when no numeric literal starts
here (`parseFloat` yields `NaN`). -/
def parseUnsignedFloat (s : Str) : Option (JsNum × Str) :=
  if strStartsWith "Infinity".toList s then some (.infinite false, s.drop 8)
  else
    let ds := s.takeWhile isDigitCh
    let rest := s.drop ds.length
    if ds = [] then
      match rest with
      | c :: r2 =>
        if c = '.' then
          let fs := r2.takeWhile isDigitCh
          if fs = [] then none
          else
            let ex := parseExpPart (r2.drop fs.length)
            some (.finite ((digitsToNat fs : ℚ) / (10 : ℚ) ^ fs.length * (10 : ℚ) ^ ex.1), ex.2)
        else none
      | [] => none
    else
      match rest with
      | c :: r2 =>
        if c = '.' then
          let fs := r2.takeWhile isDigitCh
          let ex := parseExpPart (r2.drop fs.length)
          some (.finite (((digitsToNat ds : ℚ) + (digitsToNat fs : ℚ) / (10 : ℚ) ^ fs.length)
                  * (10 : ℚ) ^ ex.1), ex.2)
        else
          let ex := parseExpPart rest
          some (.finite ((digitsToNat ds : ℚ) * (10 : ℚ) ^ ex.1), ex.2)
      | [] => some (.finite (digitsToNat ds : ℚ), rest)

/-- JavaScript `parseFloat`, returning the parsed value together with the
unconsumed remainder of the string (empty remainder = the whole string was a
numeric literal); `none` models a `NaN` result. -/
def jsParseFloatR (s : Str) : Option (JsNum × Str) :=
  let t := s.dropWhile isJsSpace
  match t with
  | c :: rest =>
    if c = '+' then parseUnsignedFloat rest
    else if c = '-' then (parseUnsignedFloat rest).map (fun p => (negJsNum p.1, p.2))
    else parseUnsignedFloat t
  | [] => none

/-- `parseFloat(s)` (`none` = `NaN`). -/
def jsParseFloat (s : Str) : Option JsNum := (jsParseFloatR s).map Prod.fst

/-- A CSV/Excel cell value (`string | number`). -/
inductive CellVal : Type
  | num (n : JsNum)
  | str (s : Str)
deriving DecidableEq

/-- Whether a cell was stored as a number. -/
def CellVal.isNumber : CellVal → Bool
  | .num _ => true
  | .str _ => false

instance : Inhabited CellVal := ⟨.str []⟩

/-- `const numValue = parseFloat(value); row[header] = isNaN(numValue) ?
value : numValue;` -/
def coerceCell (v : Str) : CellVal :=
  match jsParseFloat v with
  | some n => .num n
  | none => .str v

/-- A `DataRow`: a JavaScript object, modelled as an association list in key
insertion order. -/
abbrev Row := List (Str × CellVal)

/-- `Object.keys(row)` (insertion order). -/
def rowKeys (row : Row) : List Str := row.map Prod.fst

/-- `row[k] = v` on a JavaScript object: overwrite in place if the key
exists, else append. -/
def jsSet (row : Row) (k : Str) (v : CellVal) : Row :=
  match row with
  | [] => [(k, v)]
  | (k', v') :: rest => if k' = k then (k, v) :: rest else (k', v') :: jsSet rest k v

/-- Body of `headers.forEach((header, idx) => { const value = values[idx] ||
''; ... row[header] = ...; })`, with `idx` threaded explicitly.  An absent
`values[idx]` behaves as `''` under `|| ''`. -/
def buildRowAux (values : List Str) : ℕ → Row → List Str → Row
  | _, row, [] => row
  | idx, row, h :: hs =>
    buildRowAux values (idx + 1) (jsSet row h (coerceCell (values.getD idx []))) hs

/-- Build one data row from the header list and the parsed field values. -/
def buildRow (headers values : List Str) : Row := buildRowAux values 0 [] headers

/-- `parseCsvLine`'s character loop: a quote toggles the in-quotes state, an
unquoted comma closes the current field (pushed trimmed), anything else is
accumulated. -/
def parseCsvLineAux : Str → Str → Bool → List Str → List Str
  | [], current, _, result => result ++ [jsTrim current]
  | c :: rest, current, inQuotes, result =>
    if c = Char.ofNat 34 then parseCsvLineAux rest current (!inQuotes) result
    else if c = ',' && !inQuotes then parseCsvLineAux rest [] inQuotes (result ++ [jsTrim current])
    else parseCsvLineAux rest (current ++ [c]) inQuotes result

/-- `parseCsvLine` from `file-processor.ts`. -/
def parseCsvLine (line : Str) : List Str := parseCsvLineAux line [] false []

/-- `text.split('\n').filter(line => line.trim())`: the line list with
blank-after-trim lines removed. -/
def csvLines (t : Str) : List Str :=
  (splitChar '\n' t).filter (fun line => !(jsTrim line).isEmpty)

/-- The CSV header row (`parseCsvLine(lines[0])`; `[]` when there are no
lines). -/
def csvHeaders (t : Str) : List Str :=
  match csvLines t with
  | [] => []
  | l0 :: _ => parseCsvLine l0

/-- The parsed CSV data rows (`lines[1..]`, each built against the
headers). -/
def csvData (t : Str) : List Row :=
  match csvLines t with
  | [] => []
  | l0 :: rest => rest.map (fun l => buildRow (parseCsvLine l0) (parseCsvLine l))

/-! ## Extracted content and metadata -/

/-- A PDF page entry (`PageContent` from `types.ts`). -/
structure PageContent where
  pageNumber : ℕ
  text : Str
  imageBase64 : Option Str
deriving DecidableEq

/-- A video key frame (`VideoFrame` from `types.ts`; the optional
`audioTranscript` field is never produced by the extractor). -/
structure VideoFrame where
  timestamp : ℚ
  imageBase64 : Str
deriving DecidableEq

/-- `ExtractedContent` from `types.ts`: all payload fields optional. -/
structure ExtractedContent where
  text : Option Str := none
  pages : Option (List PageContent) := none
  data : Option (List Row) := none
  frames : Option (List VideoFrame) := none
  rawBase64 : Option Str := none

/-- `processCsv` from `file-processor.ts`.  The `text` summary field built by
`formatDataAsText` renders numbers through JavaScript float formatting and is
inspected by no claim, so the nonempty branch leaves it unmodelled
(`none`). -/
def processCsv (t : Str) : ExtractedContent :=
  match csvLines t with
  | [] => { text := some [], data := some [] }
  | l0 :: rest =>
    { data := some (rest.map (fun l => buildRow (parseCsvLine l0) (parseCsvLine l))) }

/-- The headers of an Excel sheet's row list:
`jsonData.length > 0 ? Object.keys(jsonData[0]) : []`. -/
def excelHeaders (rows : List Row) : List Str :=
  match rows with
  | [] => []
  | r :: _ => rowKeys r

/-- `processExcel` from `file-processor.ts`: the sheet parse itself is the
external `xlsx` library (`sheet_to_json`), modelled as the row list it
returns; the `text` summary is unmodelled as for CSV. -/
def processExcel (rows : List Row) : ExtractedContent :=
  { data := some rows }

/-- `FileMetadata` from `types.ts` (the `duration` field is never set by
`extractMetadata`). -/
structure FileMetadata where
  fileName : Str
  fileSize : ℕ
  pageCount : Option ℕ
  rowCount : Option ℕ
  columnCount : Option ℕ

/-- `extractMetadata` from `file-processor.ts`:
`pageCount: content.pages?.length, rowCount: content.data?.length,
columnCount: content.data?.[0] ? Object.keys(content.data[0]).length :
undefined`. -/
def extractMetadata (fileName : Str) (fileSize : ℕ) (content : ExtractedContent) :
    FileMetadata :=
  { fileName := fileName
    fileSize := fileSize
    pageCount := content.pages.map List.length
    rowCount := content.data.map List.length
    columnCount :=
      match content.data with
      | some (r :: _) => some (rowKeys r).length
      | _ => none }

/-! ## PDF extraction (`file-processor.ts`, `processPdf`)

The document itself comes from pdf.js; it is modelled by its page count and,
per page, the list of text-run strings (`textContent.items.map(item =>
item.str)`) and the rendered raster image.  The code's per-page
post-processing (`.join(' ').replace(/\s+/g, ' ').trim()`) and the page loop
are transcribed. -/

/-- One page's text: `items.join(' ').replace(/\s+/g, ' ').trim()`. -/
def extractPageText (items : List Str) : Str :=
  jsTrim (collapseSpaces (joinWith " ".toList items))

/-- The `pages` array built by `processPdf`'s loop `for (i = 1; i <=
min(numPages, 20); i++)`. -/
def pdfPages (numPages : ℕ) (pageItems : ℕ → List Str) (pageImage : ℕ → Str) :
    List PageContent :=
  (List.range' 1 (min numPages 20)).map
    (fun i => ⟨i, extractPageText (pageItems i), some (pageImage i)⟩)

/-- One page's block in the combined text: `` `[Page ${p.pageNumber}]\n${p.text}` ``. -/
def pageMarkerText (p : PageContent) : Str :=
  "[Page ".toList ++ (Nat.repr p.pageNumber).toList ++ "]\n".toList ++ p.text

/-- `pages.map(p => `[Page ...]\n...`).join('\n\n')`. -/
def pdfFullText (numPages : ℕ) (pageItems : ℕ → List Str) (pageImage : ℕ → Str) : Str :=
  joinWith "\n\n".toList ((pdfPages numPages pageItems pageImage).map pageMarkerText)

/-- `processPdf` from `file-processor.ts`. -/
def processPdf (numPages : ℕ) (pageItems : ℕ → List Str) (pageImage : ℕ → Str) :
    ExtractedContent :=
  { pages := some (pdfPages numPages pageItems pageImage)
    text := some (pdfFullText numPages pageItems pageImage) }

/-! ## Video extraction (`file-processor.ts`, `processVideo`)

The DOM video element is modelled by its reported `duration` (an exact
rational) and, per loop index, the captured frame image. -/

/-- `const frameCount = Math.min(10, Math.max(3, Math.ceil(duration / 15)));` -/
def frameCount (duration : ℚ) : ℤ := min 10 (max 3 ⌈duration / 15⌉)

/-- The `frames` array: for `i = 0 .. frameCount-1`, `timestamp = (duration /
(frameCount + 1)) * (i + 1)`. -/
def videoFrames (duration : ℚ) (frameImage : ℕ → Str) : List VideoFrame :=
  (List.range (frameCount duration).toNat).map
    (fun (i : ℕ) => ⟨duration / ((frameCount duration : ℚ) + 1) * ((i : ℚ) + 1), frameImage i⟩)

/-- `processVideo` from `file-processor.ts`: key frames plus the text summary
(`Math.round(duration)` rounds half up, i.e. `⌊duration + 1/2⌋`). -/
def processVideo (fileName : Str) (duration : ℚ) (frameImage : ℕ → Str) :
    ExtractedContent :=
  { frames := some (videoFrames duration frameImage)
    text := some ("Video: \"".toList ++ fileName ++ "\"\nDuration: ".toList ++
      (Int.repr ⌊duration + 1 / 2⌋).toList ++ " seconds\nKey frames extracted: ".toList ++
      (Nat.repr (videoFrames duration frameImage).length).toList) }

/-! # Theorems -/

/-! ## Generic helper lemmas -/

theorem assocLookup_mem {α β : Type} [DecidableEq α] {k : α} {v : β} :
    ∀ {ps : List (α × β)}, assocLookup k ps = some v → (k, v) ∈ ps := by
  intro ps
  induction ps with
  | nil => simp [assocLookup]
  | cons p rest ih =>
    obtain ⟨k', v'⟩ := p
    intro h
    rw [assocLookup] at h
    by_cases hk : k' = k
    · rw [if_pos hk] at h
      injection h with h2
      subst hk
      subst h2
      exact List.mem_cons_self _ _
    · rw [if_neg hk] at h
      exact List.mem_cons_of_mem _ (ih h)

theorem dropWhile_head_not (p : Char → Bool) :
    ∀ (s : Str) (c : Char), (s.dropWhile p).head? = some c → p c = false := by
  intro s
  induction s with
  | nil => simp [List.dropWhile]
  | cons a t ih =>
    intro c h
    rw [List.dropWhile] at h
    by_cases ha : p a
    · rw [ha] at h
      exact ih c h
    · simp only [Bool.not_eq_true] at ha
      rw [ha] at h
      simp only [List.head?_cons, Option.some.injEq] at h
      rw [← h]
      exact ha

theorem dropWhile_self_of_head (p : Char → Bool) (s : Str)
    (h : ∀ c, s.head? = some c → p c = false) : s.dropWhile p = s := by
  cases s with
  | nil => rfl
  | cons a t =>
    rw [List.dropWhile]
    rw [h a rfl]

theorem dropWhile_idem (p : Char → Bool) (s : Str) :
    (s.dropWhile p).dropWhile p = s.dropWhile p :=
  dropWhile_self_of_head p _ (dropWhile_head_not p s)

theorem trimTrailingSpace_idem (s : Str) :
    trimTrailingSpace (trimTrailingSpace s) = trimTrailingSpace s := by
  unfold trimTrailingSpace
  rw [List.reverse_reverse, dropWhile_idem]

theorem trimTrailingSpace_append (s : Str) :
    trimTrailingSpace s ++ (s.reverse.takeWhile isJsSpace).reverse = s := by
  unfold trimTrailingSpace
  rw [← List.reverse_append, List.takeWhile_append_dropWhile, List.reverse_reverse]

theorem dropWhile_length_le (p : Char → Bool) (l : Str) :
    (l.dropWhile p).length ≤ l.length := by
  have h := List.takeWhile_append_dropWhile (p := p) (l := l)
  have h2 := congrArg List.length h
  rw [List.length_append] at h2
  omega

theorem trimTrailingSpace_length_le (s : Str) : (trimTrailingSpace s).length ≤ s.length := by
  unfold trimTrailingSpace
  rw [List.length_reverse]
  calc (s.reverse.dropWhile isJsSpace).length ≤ s.reverse.length :=
        dropWhile_length_le _ _
    _ = s.length := List.length_reverse s

theorem dropWhileSpace_of_length_eq (s : Str) (h : (dropWhileSpace s).length = s.length) :
    dropWhileSpace s = s := by
  have hsplit := List.takeWhile_append_dropWhile (p := isJsSpace) (l := s)
  have hlen := congrArg List.length hsplit
  rw [List.length_append] at hlen
  unfold dropWhileSpace at h ⊢
  have : (s.takeWhile isJsSpace).length = 0 := by omega
  rw [List.length_eq_zero] at this
  rw [this] at hsplit
  simpa using hsplit

theorem jsTrim_parts (s : Str) (h : jsTrim s = s) :
    dropWhileSpace s = s ∧ trimTrailingSpace s = s := by
  have h1 : (jsTrim s).length ≤ (dropWhileSpace s).length := trimTrailingSpace_length_le _
  have h2 : (dropWhileSpace s).length ≤ s.length := dropWhile_length_le _ _
  have h3 : (jsTrim s).length = s.length := by rw [h]
  have hd : dropWhileSpace s = s := dropWhileSpace_of_length_eq s (by omega)
  constructor
  · exact hd
  · have : jsTrim s = trimTrailingSpace s := by rw [jsTrim, hd]
    rw [← this, h]

theorem trimTrailingSpace_head? (s : Str) (hne : trimTrailingSpace s ≠ []) :
    (trimTrailingSpace s).head? = s.head? := by
  conv_rhs => rw [← trimTrailingSpace_append s]
  cases hts : trimTrailingSpace s with
  | nil => exact absurd hts hne
  | cons a t => simp

theorem jsTrim_idem (s : Str) : jsTrim (jsTrim s) = jsTrim s := by
  have htrail : trimTrailingSpace (jsTrim s) = jsTrim s := by
    rw [jsTrim, trimTrailingSpace_idem]
  have hdrop : dropWhileSpace (jsTrim s) = jsTrim s := by
    apply dropWhile_self_of_head
    intro c hc
    by_cases hne : trimTrailingSpace (dropWhileSpace s) = []
    · rw [jsTrim, hne] at hc
      simp at hc
    · rw [jsTrim, trimTrailingSpace_head? _ hne] at hc
      exact dropWhile_head_not isJsSpace s c hc
  rw [jsTrim, hdrop, htrail]

/-! ## C1: response cleaning -/

theorem backtick_bq3 : bq3 = [Char.ofNat 96, Char.ofNat 96, Char.ofNat 96] := by decide

theorem jsToLowerChar_backtick {c : Char} (h : jsToLowerChar c = Char.ofNat 96) :
    c = Char.ofNat 96 := by
  unfold jsToLowerChar at h
  cases hl : assocLookup c lowerPairs with
  | none => rw [hl] at h; exact h
  | some d =>
    rw [hl] at h
    have hmem := assocLookup_mem hl
    have : ∀ p ∈ lowerPairs, p.2 ≠ Char.ofNat 96 := by decide
    exact absurd (h ▸ this _ hmem) (by simp)

theorem strLower_take_bq3 {s tag : Str} (htag3 : tag.take 3 = bq3) (hlen : 3 ≤ tag.length)
    (h : strLower (s.take tag.length) = tag) : s.take 3 = bq3 := by
  have h3 : strLower (s.take 3) = bq3 := by
    have hc := congrArg (List.take 3) h
    rw [htag3] at hc
    rw [← hc]
    unfold strLower
    rw [← List.map_take, List.take_take, Nat.min_eq_left hlen]
  rw [backtick_bq3] at h3 ⊢
  rcases hl : s.take 3 with _ | ⟨a, _ | ⟨b, _ | ⟨c, rest⟩⟩⟩ <;>
      rw [hl] at h3 <;> simp [strLower] at h3
  obtain ⟨ha, hb, hc, hrest⟩ := h3
  rw [jsToLowerChar_backtick ha, jsToLowerChar_backtick hb, jsToLowerChar_backtick hc, hrest]

theorem stripLeadingTag_eq_self {s tag : Str} (htag3 : tag.take 3 = bq3) (hlen : 3 ≤ tag.length)
    (h1 : strStartsWith bq3 s = false) : stripLeadingTag tag s = s := by
  unfold stripLeadingTag
  rw [if_neg]
  intro hcond
  have hs3 := strLower_take_bq3 htag3 hlen hcond
  unfold strStartsWith at h1
  have hb3 : bq3.length = 3 := by decide
  rw [hb3] at h1
  simp only [decide_eq_false_iff_not] at h1
  exact h1 hs3

theorem stripTrailingFence_eq_self {s : Str} (ht : trimTrailingSpace s = s)
    (h2 : strEndsWith bq3 s = false) : stripTrailingFence s = s := by
  unfold stripTrailingFence
  simp only [ht, h2]
  simp

/-- The core no-op property of `cleanResponse`: a string that is already
trimmed and carries no leading or trailing fence is returned unchanged. -/
theorem cleanResponse_eq_self {s : Str} (htrim : jsTrim s = s)
    (h1 : strStartsWith bq3 s = false) (h2 : strEndsWith bq3 s = false) :
    cleanResponse s = s := by
  obtain ⟨_, htrail⟩ := jsTrim_parts s htrim
  unfold cleanResponse
  rw [stripLeadingTag_eq_self (by decide) (by decide) h1,
    stripLeadingTag_eq_self (by decide) (by decide) h1,
    stripTrailingFence_eq_self htrail h2, htrim]

theorem jsTrim_cleanResponse (s : Str) : jsTrim (cleanResponse s) = cleanResponse s := by
  unfold cleanResponse
  rw [jsTrim_idem]

/-- C1 (corrected): `cleanResponse` is not idempotent in general; it is
idempotent on every input whose cleaned form neither starts nor ends with a
``` fence, and it returns unchanged every string that is already trimmed and
neither starts nor ends with a ``` fence. -/
theorem cleanResponse_fence_free_spec :
    (∀ s : Str, strStartsWith bq3 (cleanResponse s) = false →
      strEndsWith bq3 (cleanResponse s) = false →
      cleanResponse (cleanResponse s) = cleanResponse s)
    ∧ (∀ s : Str, jsTrim s = s → strStartsWith bq3 s = false →
        strEndsWith bq3 s = false → cleanResponse s = s) := by
  constructor
  · intro s h1 h2
    exact cleanResponse_eq_self (jsTrim_cleanResponse s) h1 h2
  · intro s htrim h1 h2
    exact cleanResponse_eq_self htrim h1 h2

/-- C1 counterexample: cleaning `" ```x"` once yields `"```x"` (the final
`trim` exposes a fence the leading-fence replacement no longer sees), and
cleaning a second time strips it further — `clean(clean(x)) ≠ clean(x)`, so
the stated idempotence is false. -/
theorem cleanResponse_not_idempotent :
    cleanResponse (cleanResponse " ```x".toList) ≠ cleanResponse " ```x".toList := by
  decide

/-- C1 witness: the amended no-op and idempotence properties at the concrete
fence-free input `"<p>hi</p>"`. -/
theorem cleanResponse_fence_free_spec_witness :
    cleanResponse (cleanResponse "<p>hi</p>".toList) = cleanResponse "<p>hi</p>".toList
    ∧ cleanResponse "<p>hi</p>".toList = "<p>hi</p>".toList :=
  ⟨cleanResponse_fence_free_spec.1 "<p>hi</p>".toList (by decide) (by decide),
   cleanResponse_fence_free_spec.2 "<p>hi</p>".toList (by decide) (by decide) (by decide)⟩

/-! ## C2: output auto-selection -/

theorem getDefaultOutputType_mem (ft : SupportedFileType) :
    getDefaultOutputType ft ∈ validTypes ∧ getDefaultOutputType ft ≠ OutputType.auto := by
  cases ft <;> exact ⟨by decide, by decide⟩

theorem validTypes_ne_auto : ∀ t ∈ validTypes, t ≠ OutputType.auto := by decide

theorem autoSelect_mem (ft : SupportedFileType) (reply : Except Unit (Option Str)) :
    autoSelectOutputType ft reply ∈ validTypes := by
  cases reply with
  | error e => exact (getDefaultOutputType_mem ft).1
  | ok s =>
    show (match validTypes.find?
        (fun t => decide (t.ident = normalizeModelReply (jsOrStr s []))) with
      | some t => t
      | none => getDefaultOutputType ft) ∈ validTypes
    cases hf : validTypes.find?
        (fun t => decide (t.ident = normalizeModelReply (jsOrStr s []))) with
    | none =>
      simp only [hf]
      exact (getDefaultOutputType_mem ft).1
    | some t =>
      simp only [hf]
      exact List.mem_of_find?_eq_some hf

/-- C2: auto-selection always lands in the nine-element `validTypes` list
(never `auto`, never anything unrecognized); a failed model call or a reply
whose normalization matches no known identifier falls back to
`getDefaultOutputType`, which itself is total over `SupportedFileType` with
values among the nine concrete types. -/
theorem autoSelect_valid_spec :
    (∀ (ft : SupportedFileType) (reply : Except Unit (Option Str)),
      autoSelectOutputType ft reply ∈ validTypes
      ∧ autoSelectOutputType ft reply ≠ OutputType.auto)
    ∧ (∀ ft : SupportedFileType,
        autoSelectOutputType ft (.error ()) = getDefaultOutputType ft)
    ∧ (∀ (ft : SupportedFileType) (s : Option Str),
        (∀ t ∈ validTypes, t.ident ≠ normalizeModelReply (jsOrStr s [])) →
        autoSelectOutputType ft (.ok s) = getDefaultOutputType ft)
    ∧ (∀ ft : SupportedFileType,
        getDefaultOutputType ft ∈ validTypes ∧ getDefaultOutputType ft ≠ OutputType.auto) := by
  refine ⟨?_, ?_, ?_, getDefaultOutputType_mem⟩
  · intro ft reply
    exact ⟨autoSelect_mem ft reply, validTypes_ne_auto _ (autoSelect_mem ft reply)⟩
  · intro ft
    rfl
  · intro ft s h
    have hnone : validTypes.find?
        (fun t => decide (t.ident = normalizeModelReply (jsOrStr s []))) = none := by
      rw [List.find?_eq_none]
      intro t ht
      simp only [decide_eq_true_eq]
      exact h t ht
    show (match validTypes.find?
        (fun t => decide (t.ident = normalizeModelReply (jsOrStr s []))) with
      | some t => t
      | none => getDefaultOutputType ft) = getDefaultOutputType ft
    simp only [hnone]

/-- C2 witness: at concrete inputs — an unrecognized reply `"banana"` on a
CSV file falls back to `commission-tycoon`, a failed call on an image falls
back to `damage-detective`, and a recognized reply is one of the nine. -/
theorem autoSelect_valid_spec_witness :
    autoSelectOutputType .csv (.ok (some "banana".toList)) = getDefaultOutputType .csv
    ∧ autoSelectOutputType .image (.error ()) = getDefaultOutputType .image
    ∧ autoSelectOutputType .pdf (.ok (some "pitch-perfector".toList)) ∈ validTypes :=
  ⟨autoSelect_valid_spec.2.2.1 .csv (some "banana".toList) (by decide),
   autoSelect_valid_spec.2.1 .image,
   (autoSelect_valid_spec.1 .pdf (.ok (some "pitch-perfector".toList))).1⟩

/-! ## C3: missing `text` field fallbacks -/

/-- C3 (corrected): when the model response lacks its `text` field, both
operations still succeed, but only `generateTraining` falls back to the
cleaned HTML comment placeholder; `refineApp` falls back to the cleaned
current HTML instead. -/
theorem missing_text_fallback_spec :
    (∀ r : Option Str, r = none → generateTrainingText r = cleanResponse failedPlaceholder)
    ∧ (∀ (html : Str) (r : Option Str), r = none →
        refineAppText html r = cleanResponse html) := by
  constructor
  · rintro r rfl
    rfl
  · rintro html r rfl
    rfl

/-- C3 counterexample: a refinement call whose response lacks `text` returns
the (cleaned) current HTML `"<p>x</p>"`, not the HTML comment placeholder the
claim predicts. -/
theorem refine_missing_text_cex :
    refineAppText "<p>x</p>".toList none = "<p>x</p>".toList
    ∧ refineAppText "<p>x</p>".toList none ≠ cleanResponse failedPlaceholder := by
  decide

/-- C3 witness: the amended fallbacks at concrete inputs. -/
theorem missing_text_fallback_spec_witness :
    generateTrainingText none = cleanResponse failedPlaceholder
    ∧ refineAppText "<p>ok</p>".toList none = cleanResponse "<p>ok</p>".toList :=
  ⟨missing_text_fallback_spec.1 none rfl,
   missing_text_fallback_spec.2 "<p>ok</p>".toList none rfl⟩

/-! ## C9: applicable outputs -/

/-- C9: `getApplicableOutputs ft` holds exactly the registry entries that are
not the synthetic `auto` entry and whose `applicableInputs` contain `ft`, and
it is a sublist of the registry (declaration order preserved). -/
theorem getApplicableOutputs_spec :
    ∀ ft : SupportedFileType,
      (∀ c : OutputConfig,
        c ∈ getApplicableOutputs ft ↔
          c ∈ OUTPUT_REGISTRY ∧ c.id ≠ OutputType.auto ∧ ft ∈ c.applicableInputs)
      ∧ List.Sublist (getApplicableOutputs ft) OUTPUT_REGISTRY := by
  intro ft
  constructor
  · intro c
    unfold getApplicableOutputs
    rw [List.mem_filter]
    simp [and_assoc]
  · exact List.filter_sublist _

/-! ## CSV row-building lemmas -/

theorem rowKeys_cons (a : Str) (b : CellVal) (r : Row) :
    rowKeys ((a, b) :: r) = a :: rowKeys r := rfl

theorem jsSet_keys_mem (row : Row) (k : Str) (v : CellVal) (k' : Str) :
    k' ∈ rowKeys (jsSet row k v) ↔ k' ∈ rowKeys row ∨ k' = k := by
  induction row with
  | nil => simp [jsSet, rowKeys]
  | cons p rest ih =>
    obtain ⟨pk, pv⟩ := p
    rw [jsSet]
    by_cases hk : pk = k
    · rw [if_pos hk]
      subst hk
      simp only [rowKeys_cons, List.mem_cons]
      tauto
    · rw [if_neg hk]
      simp only [rowKeys_cons, List.mem_cons]
      rw [ih]
      tauto

theorem jsSet_keys_of_not_mem {row : Row} {k : Str} (h : k ∉ rowKeys row) (v : CellVal) :
    rowKeys (jsSet row k v) = rowKeys row ++ [k] := by
  induction row with
  | nil => rfl
  | cons p rest ih =>
    obtain ⟨pk, pv⟩ := p
    rw [rowKeys_cons, List.mem_cons] at h
    push_neg at h
    rw [jsSet, if_neg (fun he => h.1 he.symm)]
    rw [rowKeys_cons, rowKeys_cons, List.cons_append, ih h.2]

theorem jsSet_keys_nodup {row : Row} (h : (rowKeys row).Nodup) (k : Str) (v : CellVal) :
    (rowKeys (jsSet row k v)).Nodup := by
  induction row with
  | nil => simp [jsSet, rowKeys]
  | cons p rest ih =>
    obtain ⟨pk, pv⟩ := p
    rw [rowKeys_cons, List.nodup_cons] at h
    by_cases hpk : pk = k
    · rw [jsSet, if_pos hpk, rowKeys_cons, List.nodup_cons]
      subst hpk
      exact h
    · rw [jsSet, if_neg hpk, rowKeys_cons, List.nodup_cons]
      constructor
      · rw [jsSet_keys_mem]
        push_neg
        exact ⟨h.1, hpk⟩
      · exact ih h.2

theorem jsSet_mem_pair {row : Row} {k : Str} {v : CellVal} {p : Str × CellVal}
    (h : p ∈ jsSet row k v) : p = (k, v) ∨ p ∈ row := by
  induction row with
  | nil => simpa [jsSet] using h
  | cons q rest ih =>
    obtain ⟨qk, qv⟩ := q
    rw [jsSet] at h
    by_cases hk : qk = k
    · rw [if_pos hk] at h
      rcases List.mem_cons.mp h with h1 | h2
      · exact Or.inl h1
      · exact Or.inr (List.mem_cons_of_mem _ h2)
    · rw [if_neg hk] at h
      rcases List.mem_cons.mp h with h1 | h2
      · exact Or.inr (h1 ▸ List.mem_cons_self _ _)
      · rcases ih h2 with h3 | h4
        · exact Or.inl h3
        · exact Or.inr (List.mem_cons_of_mem _ h4)

theorem assocLookup_jsSet_same (row : Row) (k : Str) (v : CellVal) :
    assocLookup k (jsSet row k v) = some v := by
  induction row with
  | nil => simp [jsSet, assocLookup]
  | cons p rest ih =>
    obtain ⟨pk, pv⟩ := p
    rw [jsSet]
    by_cases hk : pk = k
    · rw [if_pos hk, assocLookup, if_pos rfl]
    · rw [if_neg hk, assocLookup, if_neg hk]
      exact ih

theorem assocLookup_jsSet_other (row : Row) {k k' : Str} (hne : k' ≠ k) (v : CellVal) :
    assocLookup k' (jsSet row k v) = assocLookup k' row := by
  induction row with
  | nil =>
    simp only [jsSet, assocLookup]
    rw [if_neg (fun h => hne h.symm)]
  | cons p rest ih =>
    obtain ⟨pk, pv⟩ := p
    rw [jsSet]
    by_cases hk : pk = k
    · rw [if_pos hk]
      simp only [assocLookup]
      rw [if_neg (fun h => hne h.symm), if_neg (fun (h : pk = k') => hne (h ▸ hk))]
    · rw [if_neg hk]
      simp only [assocLookup]
      by_cases hpk : pk = k'
      · rw [if_pos hpk, if_pos hpk]
      · rw [if_neg hpk, if_neg hpk]
        exact ih

theorem buildRowAux_keys_mem (vs : List Str) :
    ∀ (hs : List Str) (idx : ℕ) (row : Row) (k : Str),
      k ∈ rowKeys (buildRowAux vs idx row hs) ↔ k ∈ rowKeys row ∨ k ∈ hs := by
  intro hs
  induction hs with
  | nil => simp [buildRowAux]
  | cons h t ih =>
    intro idx row k
    rw [buildRowAux, ih, jsSet_keys_mem]
    simp
    tauto

theorem buildRowAux_keys_nodup (vs : List Str) :
    ∀ (hs : List Str) (idx : ℕ) (row : Row), (rowKeys row).Nodup →
      (rowKeys (buildRowAux vs idx row hs)).Nodup := by
  intro hs
  induction hs with
  | nil => intro idx row h; exact h
  | cons h t ih =>
    intro idx row hnd
    rw [buildRowAux]
    exact ih _ _ (jsSet_keys_nodup hnd _ _)

theorem buildRowAux_keys_of_nodup (vs : List Str) :
    ∀ (hs : List Str) (idx : ℕ) (row : Row), hs.Nodup → (∀ h ∈ hs, h ∉ rowKeys row) →
      rowKeys (buildRowAux vs idx row hs) = rowKeys row ++ hs := by
  intro hs
  induction hs with
  | nil => intro idx row _ _; simp [buildRowAux]
  | cons h t ih =>
    intro idx row hnd hdisj
    rw [buildRowAux, ih _ _ (List.nodup_cons.mp hnd).2]
    · rw [jsSet_keys_of_not_mem (hdisj h (List.mem_cons_self _ _))]
      simp
    · intro h' hh'
      rw [jsSet_keys_mem]
      push_neg
      exact ⟨hdisj h' (List.mem_cons_of_mem _ hh'), fun he =>
        (List.nodup_cons.mp hnd).1 (he ▸ hh')⟩

theorem buildRowAux_lookup_not_mem (vs : List Str) :
    ∀ (hs : List Str) (idx : ℕ) (row : Row) (k : Str), k ∉ hs →
      assocLookup k (buildRowAux vs idx row hs) = assocLookup k row := by
  intro hs
  induction hs with
  | nil => intro idx row k _; rfl
  | cons h t ih =>
    intro idx row k hk
    rw [buildRowAux, ih _ _ _ (fun hm => hk (List.mem_cons_of_mem _ hm)),
      assocLookup_jsSet_other _ (fun he => hk (by rw [he]; exact List.mem_cons_self _ _))]

theorem buildRowAux_lookup (vs : List Str) :
    ∀ (hs : List Str) (idx : ℕ) (row : Row) (i : ℕ) (h : Str), hs.Nodup →
      hs.get? i = some h →
      assocLookup h (buildRowAux vs idx row hs) = some (coerceCell (vs.getD (idx + i) [])) := by
  intro hs
  induction hs with
  | nil => intro idx row i h _ hg; simp at hg
  | cons hd t ih =>
    intro idx row i h hnd hg
    cases i with
    | zero =>
      simp only [List.get?_cons_zero, Option.some.injEq] at hg
      subst hg
      rw [buildRowAux, buildRowAux_lookup_not_mem vs t _ _ _ (List.nodup_cons.mp hnd).1,
        assocLookup_jsSet_same, Nat.add_zero]
    | succ j =>
      simp only [List.get?_cons_succ] at hg
      rw [buildRowAux]
      have hih := ih (idx + 1) (jsSet row hd (coerceCell (vs.getD idx []))) j h
        (List.nodup_cons.mp hnd).2 hg
      have harith : idx + 1 + j = idx + (j + 1) := by omega
      rw [harith] at hih
      exact hih

theorem buildRowAux_mem (vs : List Str) :
    ∀ (hs : List Str) (idx : ℕ) (row : Row) (p : Str × CellVal),
      p ∈ buildRowAux vs idx row hs →
      p ∈ row ∨ ∃ j, j < hs.length ∧ p = (hs.getD j [], coerceCell (vs.getD (idx + j) [])) := by
  intro hs
  induction hs with
  | nil => intro idx row p hp; exact Or.inl hp
  | cons hd t ih =>
    intro idx row p hp
    rw [buildRowAux] at hp
    rcases ih _ _ _ hp with hmem | ⟨j, hj, he⟩
    · rcases jsSet_mem_pair hmem with h1 | h2
      · right
        exact ⟨0, by simp, by simpa using h1⟩
      · exact Or.inl h2
    · right
      refine ⟨j + 1, ?_, ?_⟩
      · simp only [List.length_cons]
        omega
      · rw [he, List.getD_cons_succ]
        have harith : idx + 1 + j = idx + (j + 1) := by omega
        rw [harith]

theorem buildRow_keys_mem (hs vs : List Str) (k : Str) :
    k ∈ rowKeys (buildRow hs vs) ↔ k ∈ hs := by
  rw [buildRow, buildRowAux_keys_mem]
  simp [rowKeys]

theorem buildRow_keys_of_nodup (hs vs : List Str) (h : hs.Nodup) :
    rowKeys (buildRow hs vs) = hs := by
  rw [buildRow, buildRowAux_keys_of_nodup vs hs 0 [] h (by simp [rowKeys])]
  rfl

/-! ## CSV pipeline structure lemmas -/

theorem processCsv_data (t : Str) : (processCsv t).data = some (csvData t) := by
  cases h : csvLines t with
  | nil => simp [processCsv, csvData, h]
  | cons l0 rest => simp [processCsv, csvData, h]

theorem csvHeaders_cons {t : Str} {l0 : Str} {rest : List Str} (h : csvLines t = l0 :: rest) :
    csvHeaders t = parseCsvLine l0 := by
  simp [csvHeaders, h]

theorem csvData_cons {t : Str} {l0 : Str} {rest : List Str} (h : csvLines t = l0 :: rest) :
    csvData t = rest.map (fun l => buildRow (parseCsvLine l0) (parseCsvLine l)) := by
  simp [csvData, h]

theorem csvData_getD {t : Str} {i : ℕ} (hi : i < (csvData t).length) :
    (csvData t).getD i [] =
      buildRow (csvHeaders t) (parseCsvLine ((csvLines t).getD (i + 1) [])) := by
  cases h : csvLines t with
  | nil =>
    have hnil : csvData t = [] := by simp [csvData, h]
    rw [hnil] at hi
    simp at hi
  | cons l0 rest =>
    have hh := csvHeaders_cons h
    have hd := csvData_cons h
    rw [hd] at hi
    rw [List.length_map] at hi
    rw [hd, hh, List.getD_cons_succ,
      List.getD_eq_getElem _ _ (by simpa using hi), List.getElem_map,
      List.getD_eq_getElem _ _ hi]

/-! ## C10: CSV row key-set invariant -/

/-- C10: every parsed CSV data row has exactly the header list as its key
set (membership coincides and the keys are duplicate-free), and a data line
with fewer fields than headers still yields an entry for every header, the
missing columns defaulting to the empty string (extra fields beyond the
headers are dropped, since every key comes from the header list). -/
theorem csv_row_keys_spec :
    ∀ (t : Str) (i : ℕ), i < (csvData t).length →
      ((∀ k, k ∈ rowKeys ((csvData t).getD i []) ↔ k ∈ csvHeaders t)
       ∧ (rowKeys ((csvData t).getD i [])).Nodup
       ∧ ∃ vs, (csvData t).getD i [] = buildRow (csvHeaders t) vs
           ∧ ((csvHeaders t).Nodup →
               ∀ j, j < (csvHeaders t).length → vs.length ≤ j →
                 assocLookup ((csvHeaders t).getD j []) ((csvData t).getD i [])
                   = some (CellVal.str []))) := by
  intro t i hi
  have hrow := csvData_getD hi
  refine ⟨?_, ?_, parseCsvLine ((csvLines t).getD (i + 1) []), hrow, ?_⟩
  · intro k
    rw [hrow]
    exact buildRow_keys_mem _ _ k
  · rw [hrow]
    exact buildRowAux_keys_nodup _ _ 0 [] (by simp [rowKeys])
  · intro hnd j hj hlen
    rw [hrow, buildRow]
    have hg : (csvHeaders t).get? j = some ((csvHeaders t).getD j []) := by
      rw [List.getD_eq_getElem _ _ hj, List.get?_eq_getElem?, List.getElem?_eq_getElem hj]
    have hlook := buildRowAux_lookup (parseCsvLine ((csvLines t).getD (i + 1) []))
      (csvHeaders t) 0 [] j ((csvHeaders t).getD j []) hnd hg
    rw [hlook, Nat.zero_add, List.getD_eq_default _ _ hlen]
    rfl

/-- C10 witness: for the CSV `"a,b\n1"` (one data line with fewer fields
than headers) the single row's keys are exactly the headers, duplicate-free,
and the missing `b` column defaults to the empty string. -/
theorem csv_row_keys_spec_witness :
    ("b".toList ∈ rowKeys ((csvData "a,b\n1".toList).getD 0 []))
    ∧ (rowKeys ((csvData "a,b\n1".toList).getD 0 [])).Nodup := by
  have h := csv_row_keys_spec "a,b\n1".toList 0 (by decide)
  exact ⟨(h.1 "b".toList).mpr (by decide), h.2.1⟩

/-! ## C4: CSV numeric coercion -/

/-- C4 (corrected): every cell of every parsed CSV row is the coercion of
its source field — stored as a number exactly when JavaScript `parseFloat`
finds a numeric literal at the head of the field (in which case the stored
number is that prefix's value, even when unparsed characters remain), and
kept as the original string exactly when `parseFloat` yields `NaN`. -/
theorem csv_cell_coercion_spec :
    ∀ (t : Str) (i : ℕ), i < (csvData t).length →
      ∀ p : Str × CellVal, p ∈ (csvData t).getD i [] →
        ∃ idx, idx < (csvHeaders t).length
          ∧ p.1 = (csvHeaders t).getD idx []
          ∧ ((jsParseFloat ((parseCsvLine ((csvLines t).getD (i + 1) [])).getD idx []) = none
               ∧ p.2 = CellVal.str ((parseCsvLine ((csvLines t).getD (i + 1) [])).getD idx []))
             ∨ (∃ n,
                 jsParseFloat ((parseCsvLine ((csvLines t).getD (i + 1) [])).getD idx [])
                   = some n
                 ∧ p.2 = CellVal.num n)) := by
  intro t i hi p hp
  rw [csvData_getD hi, buildRow] at hp
  rcases buildRowAux_mem _ _ _ _ _ hp with h0 | ⟨j, hj, he⟩
  · simp at h0
  · refine ⟨j, hj, by rw [he], ?_⟩
    cases hv : jsParseFloat ((parseCsvLine ((csvLines t).getD (i + 1) [])).getD j []) with
    | none =>
      left
      refine ⟨rfl, ?_⟩
      rw [he]
      simp only [Nat.zero_add, coerceCell, hv]
    | some n =>
      right
      refine ⟨n, rfl, ?_⟩
      rw [he]
      simp only [Nat.zero_add, coerceCell, hv]

/-- C4 counterexample: in the CSV `"h\n\"1,234\""` the quoted field
`"1,234"` does not parse fully as a number (`parseFloat` stops at the comma,
leaving `",234"` unconsumed) yet the cell is stored as a number — the claim
says such values are kept as strings. -/
theorem csv_numeric_prefix_cex :
    (assocLookup "h".toList ((csvData "h\n\"1,234\"".toList).getD 0 [])).map CellVal.isNumber
      = some true
    ∧ (jsParseFloatR "1,234".toList).map Prod.snd = some ",234".toList := by
  decide

/-- C4 witness: the amended dichotomy at the concrete CSV `"h\nabc"`, whose
single cell is kept as the string `"abc"`. -/
theorem csv_cell_coercion_spec_witness :
    ∃ idx, idx < (csvHeaders "h\nabc".toList).length
      ∧ ("h".toList, CellVal.str "abc".toList).1 = (csvHeaders "h\nabc".toList).getD idx []
      ∧ ((jsParseFloat
            ((parseCsvLine ((csvLines "h\nabc".toList).getD 1 [])).getD idx []) = none
           ∧ ("h".toList, CellVal.str "abc".toList).2 = CellVal.str
               ((parseCsvLine ((csvLines "h\nabc".toList).getD 1 [])).getD idx []))
         ∨ (∃ n,
             jsParseFloat ((parseCsvLine ((csvLines "h\nabc".toList).getD 1 [])).getD idx [])
               = some n
             ∧ ("h".toList, CellVal.str "abc".toList).2 = CellVal.num n)) :=
  csv_cell_coercion_spec "h\nabc".toList 0 (by decide)
    ("h".toList, CellVal.str "abc".toList) (by decide)

/-! ## C8: tabular metadata counts -/

/-- C8 (corrected): `rowCount` always equals the number of parsed data rows;
`columnCount` equals the number of headers whenever there is at least one
data row and (for CSV) the headers are pairwise distinct — with no data rows
it is absent, and duplicate CSV headers collapse into one key. -/
theorem csv_excel_metadata_spec :
    (∀ (t fn : Str) (fs : ℕ),
      (extractMetadata fn fs (processCsv t)).rowCount = some (csvData t).length)
    ∧ (∀ (t fn : Str) (fs : ℕ), csvData t ≠ [] → (csvHeaders t).Nodup →
        (extractMetadata fn fs (processCsv t)).columnCount = some (csvHeaders t).length)
    ∧ (∀ (rows : List Row) (fn : Str) (fs : ℕ), rows ≠ [] →
        (extractMetadata fn fs (processExcel rows)).rowCount = some rows.length
        ∧ (extractMetadata fn fs (processExcel rows)).columnCount
            = some (excelHeaders rows).length) := by
  refine ⟨?_, ?_, ?_⟩
  · intro t fn fs
    show ((processCsv t).data.map List.length) = _
    rw [processCsv_data]
    rfl
  · intro t fn fs hne hnd
    cases hd : csvData t with
    | nil => exact absurd hd hne
    | cons r rest =>
      have h0 : (0 : ℕ) < (csvData t).length := by rw [hd]; simp
      have hr : r = buildRow (csvHeaders t) (parseCsvLine ((csvLines t).getD 1 [])) := by
        have := csvData_getD h0
        rw [hd] at this
        simpa using this
      show (match (processCsv t).data with
        | some (r :: _) => some (rowKeys r).length
        | _ => none) = _
      rw [processCsv_data, hd]
      simp only []
      rw [hr, buildRow_keys_of_nodup _ _ hnd]
  · intro rows fn fs hne
    cases rows with
    | nil => exact absurd rfl hne
    | cons r rest => exact ⟨rfl, rfl⟩

/-- C8 counterexample: a header-only CSV (`"a,b,c"`) has three headers but
no data rows, so `columnCount` is absent rather than 3; and the
duplicate-header CSV `"a,a\n1,2"` has two headers but `columnCount` 1. -/
theorem metadata_column_count_cex :
    (extractMetadata [] 0 (processCsv "a,b,c".toList)).columnCount = none
    ∧ (csvHeaders "a,b,c".toList).length = 3
    ∧ (extractMetadata [] 0 (processCsv "a,a\n1,2".toList)).columnCount = some 1
    ∧ (csvHeaders "a,a\n1,2".toList).length = 2 := by
  decide

/-- C8 witness: the amended count equations at the concrete CSV
`"a,b\nx,y"` and a one-row Excel sheet. -/
theorem csv_excel_metadata_spec_witness :
    (extractMetadata [] 0 (processCsv "a,b\nx,y".toList)).rowCount
        = some (csvData "a,b\nx,y".toList).length
    ∧ (extractMetadata [] 0 (processCsv "a,b\nx,y".toList)).columnCount
        = some (csvHeaders "a,b\nx,y".toList).length
    ∧ (extractMetadata [] 0 (processExcel [[("a".toList, CellVal.str [])]])).columnCount
        = some (excelHeaders [[("a".toList, CellVal.str [])]]).length :=
  ⟨csv_excel_metadata_spec.1 "a,b\nx,y".toList [] 0,
   csv_excel_metadata_spec.2.1 "a,b\nx,y".toList [] 0 (by decide) (by decide),
   (csv_excel_metadata_spec.2.2 [[("a".toList, CellVal.str [])]] [] 0 (by decide)).2⟩

/-! ## C7: file classification -/

set_option maxHeartbeats 2000000 in
/-- `detectFileType` factors through the two category maps: media type is
consulted first, the filename extension only when no media-type category
matches, and the unsupported error is produced when neither matches. -/
theorem detectFileType_eq (mimeType fileName : Str) :
    detectFileType mimeType fileName =
      (match mimeCategory (strLower mimeType) with
       | some t => .ok t
       | none =>
         match extCategory (strLower fileName) with
         | some t => .ok t
         | none =>
           .error ("Unsupported file type: ".toList ++
             (if strLower mimeType = [] then strLower fileName else strLower mimeType))) := by
  simp only [detectFileType, mimeCategory, extCategory]
  by_cases c1 : strStartsWith "image/".toList (strLower mimeType) = true
  · rw [if_pos c1, if_pos c1]
  · rw [if_neg c1, if_neg c1]
    by_cases c2 : strLower mimeType = "application/pdf".toList
    · rw [if_pos c2, if_pos c2]
    · rw [if_neg c2, if_neg c2]
      by_cases c3 : strLower mimeType = "text/csv".toList
      · rw [if_pos c3, if_pos c3]
      · rw [if_neg c3, if_neg c3]
        by_cases c4 : (strContainsSub "spreadsheet".toList (strLower mimeType) ||
            strContainsSub "excel".toList (strLower mimeType)) = true
        · rw [if_pos c4, if_pos c4]
        · rw [if_neg c4, if_neg c4]
          by_cases c5 : strStartsWith "video/".toList (strLower mimeType) = true
          · rw [if_pos c5, if_pos c5]
          · rw [if_neg c5, if_neg c5]
            by_cases c6 : strLower mimeType = "text/markdown".toList
            · rw [if_pos c6, if_pos c6]
            · rw [if_neg c6, if_neg c6]
              by_cases c7 : strStartsWith "text/".toList (strLower mimeType) = true
              · rw [if_pos c7, if_pos c7]
              · rw [if_neg c7, if_neg c7]
                by_cases e1 : strEndsWith ".csv".toList (strLower fileName) = true
                · rw [if_pos e1, if_pos e1]
                · rw [if_neg e1, if_neg e1]
                  by_cases e2 : (strEndsWith ".xlsx".toList (strLower fileName) ||
                      strEndsWith ".xls".toList (strLower fileName)) = true
                  · rw [if_pos e2, if_pos e2]
                  · rw [if_neg e2, if_neg e2]
                    by_cases e3 : (strEndsWith ".md".toList (strLower fileName) ||
                        strEndsWith ".markdown".toList (strLower fileName)) = true
                    · rw [if_pos e3, if_pos e3]
                    · rw [if_neg e3, if_neg e3]
                      by_cases e4 : strEndsWith ".txt".toList (strLower fileName) = true
                      · rw [if_pos e4, if_pos e4]
                      · rw [if_neg e4, if_neg e4]
                        by_cases e5 : strEndsWith ".pdf".toList (strLower fileName) = true
                        · rw [if_pos e5, if_pos e5]
                        · rw [if_neg e5, if_neg e5]
                          by_cases e6 : videoExtMatch (strLower fileName) = true
                          · rw [if_pos e6, if_pos e6]
                          · rw [if_neg e6, if_neg e6]
                            by_cases e7 : imageExtMatch (strLower fileName) = true
                            · rw [if_pos e7, if_pos e7]
                            · rw [if_neg e7, if_neg e7]

/-- C7: whenever the declared media type falls in a known category, the
classifier returns that category's type regardless of the filename; when no
media-type category matches but the filename extension does, it returns the
extension-implied type; when neither matches, it fails with the
unsupported-file-type error. -/
theorem detect_file_type_spec :
    ∀ mimeType fileName : Str,
      (∀ t, mimeCategory (strLower mimeType) = some t →
        detectFileType mimeType fileName = .ok t)
      ∧ (mimeCategory (strLower mimeType) = none →
          ∀ t, extCategory (strLower fileName) = some t →
            detectFileType mimeType fileName = .ok t)
      ∧ (mimeCategory (strLower mimeType) = none →
          extCategory (strLower fileName) = none →
          detectFileType mimeType fileName =
            .error ("Unsupported file type: ".toList ++
              (if strLower mimeType = [] then strLower fileName else strLower mimeType))) := by
  intro mimeType fileName
  refine ⟨?_, ?_, ?_⟩
  · intro t h
    rw [detectFileType_eq, h]
  · intro h t he
    rw [detectFileType_eq, h, he]
  · intro h he
    rw [detectFileType_eq, h, he]

/-- C7 witness: an uppercase image media type beats a `.csv` extension; an
unrecognized media type defers to a `.mkv` extension; with neither signal
the classifier errors. -/
theorem detect_file_type_spec_witness :
    detectFileType "IMAGE/PNG".toList "x.csv".toList = .ok .image
    ∧ detectFileType "application/octet-stream".toList "Roof.MKV".toList = .ok .video
    ∧ detectFileType "".toList "x.bin".toList
        = .error "Unsupported file type: x.bin".toList :=
  ⟨(detect_file_type_spec "IMAGE/PNG".toList "x.csv".toList).1 .image (by decide),
   (detect_file_type_spec "application/octet-stream".toList "Roof.MKV".toList).2.1
     (by decide) .video (by decide),
   ((detect_file_type_spec "".toList "x.bin".toList).2.2 (by decide) (by decide)).trans
     (by decide)⟩

/-! ## C5: PDF page cap -/

theorem mem_infix_joinWith (sep : Str) :
    ∀ (xs : List Str) (x : Str), x ∈ xs → List.IsInfix x (joinWith sep xs) := by
  intro xs
  induction xs with
  | nil => intro x hx; simp at hx
  | cons y ys ih =>
    intro x hx
    cases ys with
    | nil =>
      rw [List.mem_singleton] at hx
      subst hx
      exact List.infix_rfl
    | cons z zs =>
      rcases List.mem_cons.mp hx with h1 | h2
      · subst h1
        rw [joinWith]
        exact ⟨[], sep ++ joinWith sep (z :: zs), by simp⟩
      · obtain ⟨a, b, hab⟩ := ih x h2
        rw [joinWith]
        exact ⟨y ++ sep ++ a, b, by rw [← hab]; simp⟩

theorem pdfPages_of_gt (numPages : ℕ) (pageItems : ℕ → List Str) (pageImage : ℕ → Str)
    (h : 20 < numPages) :
    pdfPages numPages pageItems pageImage =
      (List.range' 1 20).map
        (fun i => ⟨i, extractPageText (pageItems i), some (pageImage i)⟩) := by
  rw [pdfPages, Nat.min_eq_right h.le]

/-- C5: a PDF with more than 20 pages extracts exactly 20 `pages` entries,
numbered 1 through 20 in strictly ascending order; the combined `text` is
the `\n\n`-join of each page's `[Page n]`-marked block in that ascending
order, so every page's marked block occurs inside it. -/
theorem pdf_page_cap_spec :
    ∀ (numPages : ℕ) (pageItems : ℕ → List Str) (pageImage : ℕ → Str),
      20 < numPages →
      (pdfPages numPages pageItems pageImage).length = 20
      ∧ (pdfPages numPages pageItems pageImage).map PageContent.pageNumber = List.range' 1 20
      ∧ List.Chain' (· < ·)
          ((pdfPages numPages pageItems pageImage).map PageContent.pageNumber)
      ∧ (∀ p ∈ pdfPages numPages pageItems pageImage,
          List.IsInfix (pageMarkerText p) (pdfFullText numPages pageItems pageImage))
      ∧ pdfFullText numPages pageItems pageImage
          = joinWith "\n\n".toList ((List.range' 1 20).map
              (fun i => "[Page ".toList ++ (Nat.repr i).toList ++ "]\n".toList
                ++ extractPageText (pageItems i))) := by
  intro numPages pageItems pageImage h
  have hpg := pdfPages_of_gt numPages pageItems pageImage h
  have hmap : (pdfPages numPages pageItems pageImage).map PageContent.pageNumber
      = List.range' 1 20 := by
    rw [hpg, List.map_map]
    exact List.map_id _
  refine ⟨?_, hmap, ?_, ?_, ?_⟩
  · rw [hpg, List.length_map]
    exact List.length_range' ..
  · rw [hmap]
    exact (List.pairwise_lt_range' ..).chain'
  · intro p hp
    apply mem_infix_joinWith
    exact List.mem_map_of_mem pageMarkerText hp
  · rw [pdfFullText, hpg, List.map_map]
    rfl

/-- C5 witness: a 25-page document is capped at 20 pages numbered 1..20. -/
theorem pdf_page_cap_spec_witness :
    (pdfPages 25 (fun _ => ["hi".toList]) (fun _ => [])).length = 20
    ∧ (pdfPages 25 (fun _ => ["hi".toList]) (fun _ => [])).map PageContent.pageNumber
        = List.range' 1 20 :=
  ⟨(pdf_page_cap_spec 25 (fun _ => ["hi".toList]) (fun _ => []) (by decide)).1,
   (pdf_page_cap_spec 25 (fun _ => ["hi".toList]) (fun _ => []) (by decide)).2.1⟩

/-! ## C6: video frame sampling -/

theorem video_ts_eq (d : ℚ) (img : ℕ → Str) :
    (videoFrames d img).map VideoFrame.timestamp =
      (List.range (frameCount d).toNat).map
        (fun i : ℕ => d / ((frameCount d : ℚ) + 1) * ((i : ℚ) + 1)) := by
  rw [videoFrames, List.map_map]
  rfl

/-- C6 (corrected): for every video of positive duration `d`, the frame
count equals `clamp(ceil(d/15), 3, 10)` (hence lies in `[3, 10]`), the
timestamps are strictly increasing, strictly between the start and the end
of the video, and evenly spaced with gap `d / (frameCount + 1)`. -/
theorem video_frame_spacing_spec :
    ∀ (d : ℚ) (img : ℕ → Str), 0 < d →
      (videoFrames d img).length = (min 10 (max 3 ⌈d / 15⌉)).toNat
      ∧ 3 ≤ (videoFrames d img).length
      ∧ (videoFrames d img).length ≤ 10
      ∧ List.Chain' (· < ·) ((videoFrames d img).map VideoFrame.timestamp)
      ∧ (∀ q ∈ (videoFrames d img).map VideoFrame.timestamp, 0 < q ∧ q < d)
      ∧ (∀ i, i + 1 < (videoFrames d img).length →
          ((videoFrames d img).map VideoFrame.timestamp).getD (i + 1) 0
            - ((videoFrames d img).map VideoFrame.timestamp).getD i 0
            = d / ((frameCount d : ℚ) + 1)) := by
  intro d img hd
  have h3 : (3 : ℤ) ≤ frameCount d := le_min (by norm_num) (le_max_left _ _)
  have h10 : frameCount d ≤ 10 := min_le_left _ _
  have hcast : ((frameCount d).toNat : ℚ) = ((frameCount d : ℤ) : ℚ) := by
    have h := Int.toNat_of_nonneg (a := frameCount d) (by omega)
    exact_mod_cast congrArg (fun z : ℤ => (z : ℚ)) h
  have hNpos : (0 : ℚ) < (frameCount d : ℚ) + 1 := by
    have : (3 : ℚ) ≤ (frameCount d : ℚ) := by exact_mod_cast h3
    linarith
  have hc : 0 < d / ((frameCount d : ℚ) + 1) := div_pos hd hNpos
  have hlen : (videoFrames d img).length = (frameCount d).toNat := by
    rw [videoFrames, List.length_map, List.length_range]
  have hmono : ∀ a b : ℕ, a < b →
      d / ((frameCount d : ℚ) + 1) * ((a : ℚ) + 1)
        < d / ((frameCount d : ℚ) + 1) * ((b : ℚ) + 1) := by
    intro a b hab
    apply mul_lt_mul_of_pos_left _ hc
    have : (a : ℚ) < (b : ℚ) := by exact_mod_cast hab
    linarith
  refine ⟨hlen, by omega, by omega, ?_, ?_, ?_⟩
  · rw [video_ts_eq]
    apply List.Pairwise.chain'
    rw [List.pairwise_map]
    exact (List.pairwise_lt_range _).imp (fun hab => hmono _ _ hab)
  · intro q hq
    rw [video_ts_eq] at hq
    obtain ⟨i, hi, rfl⟩ := List.mem_map.mp hq
    rw [List.mem_range] at hi
    constructor
    · apply mul_pos hc
      positivity
    · have hib : (i : ℚ) + 1 < (frameCount d : ℚ) + 1 := by
        have h1 : (i : ℚ) < ((frameCount d).toNat : ℚ) := by exact_mod_cast hi
        rw [hcast] at h1
        linarith
      calc d / ((frameCount d : ℚ) + 1) * ((i : ℚ) + 1)
          < d / ((frameCount d : ℚ) + 1) * ((frameCount d : ℚ) + 1) :=
            mul_lt_mul_of_pos_left hib hc
        _ = d := div_mul_cancel₀ d (by linarith)
  · intro i hi
    rw [hlen] at hi
    have hgd : ∀ j : ℕ, j < (frameCount d).toNat →
        (((List.range (frameCount d).toNat).map
          (fun i : ℕ => d / ((frameCount d : ℚ) + 1) * ((i : ℚ) + 1))).getD j 0)
          = d / ((frameCount d : ℚ) + 1) * ((j : ℚ) + 1) := by
      intro j hj
      rw [List.getD_eq_getElem _ _ (by simpa using hj), List.getElem_map,
        List.getElem_range]
    rw [video_ts_eq, hgd i (by omega), hgd (i + 1) (by omega)]
    push_cast
    ring

/-- C6 counterexample: at duration 0 (a zero-length video) the code still
extracts 3 frames, but all their timestamps are 0 — not strictly
increasing, contradicting the claim as stated for every duration. -/
theorem video_zero_duration_cex :
    (videoFrames 0 (fun _ => [])).length = 3
    ∧ ¬ List.Chain' (· < ·) ((videoFrames 0 (fun _ => [])).map VideoFrame.timestamp) := by
  have hf : frameCount 0 = 3 := by norm_num [frameCount]
  have hts : (videoFrames 0 (fun _ => [])).map VideoFrame.timestamp = [0, 0, 0] := by
    rw [videoFrames, List.map_map, hf]
    show (List.range (3 : ℤ).toNat).map _ = _
    simp [Function.comp, List.range_succ]
  constructor
  · rw [videoFrames, List.length_map, List.length_range, hf]
    rfl
  · rw [hts]
    intro h
    rw [List.chain'_cons] at h
    exact absurd h.1 (lt_irrefl 0)

/-- C6 witness: a 60-second video yields `clamp(ceil(60/15), 3, 10) = 4`
frames, at least 3 of them. -/
theorem video_frame_spacing_spec_witness :
    (videoFrames 60 (fun _ => [])).length = (min 10 (max 3 ⌈(60 : ℚ) / 15⌉)).toNat
    ∧ 3 ≤ (videoFrames 60 (fun _ => [])).length :=
  ⟨(video_frame_spacing_spec 60 (fun _ => []) (by decide)).1,
   (video_frame_spacing_spec 60 (fun _ => []) (by decide)).2.1⟩

end TRD
